import Mathlib

/-!
Verification of the Bloch sphere visualizer's state model.

A shallow embedding of the quantum-state core of `bloch-sphere.js`:
the qubit angles, the gate angle maps, the preset table, the transition
animator, the measurement simulator and the amplitude formatter, together
with proofs of the specified properties.

Angles are modelled as real numbers; JavaScript's `%` operator and
`Math.atan2` are embedded explicitly (`jsMod`, `atan2`).
-/

open Real

namespace BlochSphere

/-- The numerical threshold `1e-10` used by the source for special cases. -/
noncomputable def eps : ℝ := 1e-10

/-- JavaScript truncation toward zero (the rounding used by the `%` operator). -/
noncomputable def jsTrunc (x : ℝ) : ℤ := if 0 ≤ x then ⌊x⌋ else ⌈x⌉

/-- The JavaScript remainder operator `a % b`, i.e. `a - b * trunc (a / b)`. -/
noncomputable def jsMod (a b : ℝ) : ℝ := a - b * jsTrunc (a / b)

/-- JavaScript `Math.atan2 y x`: the argument of the complex number `x + y*i`,
with values in `(-π, π]` and `atan2 0 0 = 0`. -/
noncomputable def atan2 (y x : ℝ) : ℝ := Complex.arg ⟨x, y⟩

/-- The `if (newPhi < 0) newPhi += 2 * Math.PI` normalization used by the source
after `%` and after `Math.atan2`. -/
noncomputable def normAngle (v : ℝ) : ℝ := if v < 0 then v + 2 * π else v

/-- The mutable state of `BlochSphereVisualizer` relevant to the state model:
the two qubit angles, the animation flag, and the data captured by an accepted
`animateToState` call (the closure variables of the per-frame callback). -/
structure VizState where
  theta : ℝ
  phi : ℝ
  isAnimating : Bool
  startTheta : ℝ
  startPhi : ℝ
  targetTheta : ℝ
  targetPhi : ℝ
  startTime : ℝ
  duration : ℝ

/-- `animateToState(targetTheta, targetPhi, duration)`: rejected when already
animating, otherwise captures the current angles as start point, the target,
and the current wall-clock time (`Date.now()`, passed here as `now`). -/
noncomputable def animateToState (s : VizState)
    (targetTheta targetPhi duration now : ℝ) : VizState :=
  if s.isAnimating then s
  else
    { s with
      isAnimating := true
      startTheta := s.theta
      startPhi := s.phi
      targetTheta := targetTheta
      targetPhi := targetPhi
      startTime := now
      duration := duration }

/-- The progress value computed by one step of the `animate` callback:
`Math.min(elapsed / duration, 1)`. -/
noncomputable def tickProgress (s : VizState) (now : ℝ) : ℝ :=
  min ((now - s.startTime) / s.duration) 1

/-- One step of the `animate` callback at wall-clock time `now`: cubic
ease-out interpolation of both angles, clearing `isAnimating` once
progress reaches 1. -/
noncomputable def tick (s : VizState) (now : ℝ) : VizState :=
  let progress := tickProgress s now
  let eased := 1 - (1 - progress) ^ 3
  { s with
    theta := s.startTheta + (s.targetTheta - s.startTheta) * eased
    phi := s.startPhi + (s.targetPhi - s.startPhi) * eased
    isAnimating := if progress < 1 then s.isAnimating else false }

/-- The θ-slider `input` handler: stores `value * Math.PI / 180` directly. -/
noncomputable def thetaSliderInput (s : VizState) (value : ℝ) : VizState :=
  { s with theta := value * π / 180 }

/-- The φ-slider `input` handler: stores `value * Math.PI / 180` directly. -/
noncomputable def phiSliderInput (s : VizState) (value : ℝ) : VizState :=
  { s with phi := value * π / 180 }

/-- The Pauli-X angle map from `applyPauliX`. -/
noncomputable def pauliXMap (theta phi : ℝ) : ℝ × ℝ :=
  (π - theta, jsMod (phi + π) (2 * π))

/-- The Pauli-Y angle map from `applyPauliY`. -/
noncomputable def pauliYMap (theta phi : ℝ) : ℝ × ℝ :=
  (π - theta, normAngle (jsMod (π - phi) (2 * π)))

/-- The Pauli-Z angle map from `applyPauliZ`. -/
noncomputable def pauliZMap (theta phi : ℝ) : ℝ × ℝ :=
  (theta, jsMod (phi + π) (2 * π))

/-- The Hadamard angle map from `applyHadamard`: two special-cased poles,
otherwise swap the X and Z Cartesian components and negate Y, then
reconstruct the angles. -/
noncomputable def hadamardMap (theta phi : ℝ) : ℝ × ℝ :=
  if |theta| < eps then (π / 2, 0)
  else if |theta - π| < eps then (π / 2, π)
  else
    let x := Real.sin theta * Real.cos phi
    let y := Real.sin theta * Real.sin phi
    let z := Real.cos theta
    let x2 := z
    let y2 := -y
    let z2 := x
    (Real.arccos z2, normAngle (atan2 y2 x2))

/-- `applyPauliX`: compute the Pauli-X target and request a transition. -/
noncomputable def applyPauliX (s : VizState) (now : ℝ) : VizState :=
  animateToState s (pauliXMap s.theta s.phi).1 (pauliXMap s.theta s.phi).2 1000 now

/-- `applyPauliY`: compute the Pauli-Y target and request a transition. -/
noncomputable def applyPauliY (s : VizState) (now : ℝ) : VizState :=
  animateToState s (pauliYMap s.theta s.phi).1 (pauliYMap s.theta s.phi).2 1000 now

/-- `applyPauliZ`: compute the Pauli-Z target and request a transition. -/
noncomputable def applyPauliZ (s : VizState) (now : ℝ) : VizState :=
  animateToState s (pauliZMap s.theta s.phi).1 (pauliZMap s.theta s.phi).2 1000 now

/-- `applyHadamard`: compute the Hadamard target and request a transition. -/
noncomputable def applyHadamard (s : VizState) (now : ℝ) : VizState :=
  animateToState s (hadamardMap s.theta s.phi).1 (hadamardMap s.theta s.phi).2 1000 now

/-- The static preset table of `setPresetState`. -/
noncomputable def presetTable (id : String) : Option (ℝ × ℝ) :=
  if id = "ground" then some (0, 0)
  else if id = "excited" then some (π, 0)
  else if id = "plus" then some (π / 2, 0)
  else if id = "minus" then some (π / 2, π)
  else if id = "right" then some (π / 2, π / 2)
  else if id = "left" then some (π / 2, 3 * π / 2)
  else none

/-- `setPresetState(state)`: dispatch on the table's own entries.
`setPresetStateJs` below models the same source including the inherited
`Object.prototype` keys that the JavaScript lookup also finds. -/
noncomputable def setPresetState (s : VizState) (id : String) (now : ℝ) : VizState :=
  match presetTable id with
  | some tp => animateToState s tp.1 tp.2 1000 now
  | none => s

/-- `applyQuantumGate(gate)`: dispatch on the object literal's own keys
`x`, `y`, `z`, `h`. The JavaScript lookup additionally finds truthy
inherited `Object.prototype` members (see `objectProtoKeys` below), for
which the source evaluates `gates[gate]()`: the callable ones run a builtin
that leaves the visualizer state untouched, the non-callable ones
(`__proto__`, `__defineGetter__`, `__defineSetter__`) raise a TypeError;
this own-key model covers neither. -/
noncomputable def applyQuantumGate (s : VizState) (gate : String) (now : ℝ) : VizState :=
  if gate = "x" then applyPauliX s now
  else if gate = "y" then applyPauliY s now
  else if gate = "z" then applyPauliZ s now
  else if gate = "h" then applyHadamard s now
  else s

/-- The body of `performMeasurement` (inside the deferred callback): one
uniform sample decides the outcome against `p0 = cos²(θ/2)`, and the state
collapses toward the corresponding pole via `animateToState`. -/
noncomputable def performMeasurement (s : VizState) (sample now : ℝ) :
    ℕ × VizState :=
  let p0 := Real.cos (s.theta / 2) ^ 2
  if sample < p0 then (0, animateToState s 0 0 1000 now)
  else (1, animateToState s π 0 1000 now)

/-- The `Complex` helper class of the source (named `Cx` here to avoid
clashing with Mathlib's complex numbers). -/
structure Cx where
  real : ℝ
  imag : ℝ

/-- `Complex.exp(z)` from the source. -/
noncomputable def Cx.exp (z : Cx) : Cx :=
  ⟨Real.exp z.real * Real.cos z.imag, Real.exp z.real * Real.sin z.imag⟩

/-- `Complex.scale(s)` from the source. -/
noncomputable def Cx.scale (z : Cx) (s : ℝ) : Cx :=
  ⟨z.real * s, z.imag * s⟩

/-- The amplitude `α = cos(θ/2)` computed by `updateStateDisplay`. -/
noncomputable def alphaOf (theta : ℝ) : Cx :=
  ⟨Real.cos (theta / 2), 0⟩

/-- The amplitude `β = exp(iφ)·sin(θ/2)` computed by `updateStateDisplay`. -/
noncomputable def betaOf (theta phi : ℝ) : Cx :=
  (Cx.exp ⟨0, phi⟩).scale (Real.sin (theta / 2))

/-- Zero-padding of a fractional part to three digits. -/
def pad3 (f : ℕ) : String :=
  (if f < 10 then "00" else if f < 100 then "0" else "") ++ toString f

/-- Decimal rendering of `n` thousandths with three digits after the point. -/
def fixed3Str (n : ℕ) : String :=
  toString (n / 1000) ++ "." ++ pad3 (n % 1000)

/-- JavaScript `x.toFixed(3)`: round half away from zero to a multiple of
`0.001` and print with exactly three fractional digits. -/
noncomputable def toFixed3 (x : ℝ) : String :=
  if x < 0 then "-" ++ fixed3Str (round (1000 * -x)).toNat
  else fixed3Str (round (1000 * x)).toNat

/-- `formatComplex(real, imag)` from the source. -/
noncomputable def formatComplex (re im : ℝ) : String :=
  if |im| < eps then toFixed3 re
  else
    let realStr := if |re| < eps then "" else toFixed3 re
    let imagStr :=
      if |im - 1| < eps then "i"
      else if |im + 1| < eps then "-i"
      else toFixed3 im ++ "i"
    if realStr = "" then imagStr
    else if 0 < im then realStr ++ " + " ++ imagStr
    else realStr ++ " - " ++ imagStr.drop 1

/-- The angle-range invariant of the data model: `θ ∈ [0, π]`, `φ ∈ [0, 2π)`. -/
def inRange (p : ℝ × ℝ) : Prop :=
  0 ≤ p.1 ∧ p.1 ≤ π ∧ 0 ≤ p.2 ∧ p.2 < 2 * π

/-- An idle sample state, used to instantiate universally quantified results. -/
noncomputable def sIdle : VizState :=
  ⟨0, 0, false, 0, 0, 0, 0, 0, 1000⟩

/-- An animating sample state, used to instantiate universally quantified
results. -/
noncomputable def sAnim : VizState :=
  ⟨1, 2, true, 1, 2, 3, 1, 1000, 1000⟩

/-- The own property names of `Object.prototype` (the standard members
together with the legacy Annex B accessors), inherited by every object
literal; each reads as a function or object and is therefore truthy under
`if (states[state])` and `if (gates[gate])`. -/
def objectProtoKeys : List String :=
  ["constructor", "hasOwnProperty", "isPrototypeOf", "propertyIsEnumerable",
   "toLocaleString", "toString", "valueOf", "__proto__", "__defineGetter__",
   "__defineSetter__", "__lookupGetter__", "__lookupSetter__"]

/-- The result of the JavaScript property read `states[state]` on the preset
object literal: an own `{theta, phi}` entry, a truthy member inherited from
`Object.prototype` (whose `.theta` and `.phi` read as `undefined`), or
`undefined` (falsy). -/
inductive PresetRead where
  | own (theta phi : ℝ) : PresetRead
  | inherited : PresetRead
  | absent : PresetRead

/-- The full JavaScript lookup `states[state]`, prototype chain included. -/
noncomputable def statesRead (id : String) : PresetRead :=
  if id = "ground" then .own 0 0
  else if id = "excited" then .own π 0
  else if id = "plus" then .own (π / 2) 0
  else if id = "minus" then .own (π / 2) π
  else if id = "right" then .own (π / 2) (π / 2)
  else if id = "left" then .own (π / 2) (3 * π / 2)
  else if id ∈ objectProtoKeys then .inherited
  else .absent

/-- Visualizer state over JavaScript numbers-or-`undefined`: `none` models an
angle slot holding `undefined` (or the NaN that arithmetic on it produces),
which the source never guards against. -/
structure VizStateJs where
  theta : Option ℝ
  phi : Option ℝ
  isAnimating : Bool
  startTheta : Option ℝ
  startPhi : Option ℝ
  targetTheta : Option ℝ
  targetPhi : Option ℝ
  startTime : ℝ
  duration : ℝ

/-- `animateToState` over `VizStateJs`: the same control flow as
`animateToState`, but able to record `undefined` target angles. -/
noncomputable def animateToStateJs (s : VizStateJs)
    (targetTheta targetPhi : Option ℝ) (duration now : ℝ) : VizStateJs :=
  if s.isAnimating then s
  else
    { s with
      isAnimating := true
      startTheta := s.theta
      startPhi := s.phi
      targetTheta := targetTheta
      targetPhi := targetPhi
      startTime := now
      duration := duration }

/-- `setPresetState` with the JavaScript object lookup modelled in full:
`if (states[state])` is passed both by the six own entries and by the truthy
inherited `Object.prototype` members, for which `states[state].theta` and
`states[state].phi` are `undefined`. -/
noncomputable def setPresetStateJs (s : VizStateJs) (id : String) (now : ℝ) :
    VizStateJs :=
  match statesRead id with
  | .own t p => animateToStateJs s (some t) (some p) 1000 now
  | .inherited => animateToStateJs s none none 1000 now
  | .absent => s

/-- An idle `VizStateJs` whose angle slots all hold ordinary numbers. -/
noncomputable def sIdleJs : VizStateJs :=
  ⟨some 0, some 0, false, some 0, some 0, some 0, some 0, 0, 1000⟩

/-! ## Basic facts about the embedded primitives -/

theorem eps_pos : 0 < eps := by norm_num [eps]

theorem eps_lt_pi_div_two : eps < π / 2 := by
  have h := Real.pi_gt_three
  norm_num [eps]
  linarith

theorem jsMod_eq_self {a b : ℝ} (hb : 0 < b) (h0 : 0 ≤ a) (h1 : a < b) :
    jsMod a b = a := by
  have hq : 0 ≤ a / b := div_nonneg h0 hb.le
  have hfl : ⌊a / b⌋ = 0 := by
    rw [Int.floor_eq_zero_iff]
    exact ⟨hq, by rwa [div_lt_one hb]⟩
  simp [jsMod, jsTrunc, if_pos hq, hfl]

theorem jsMod_eq_sub {a b : ℝ} (hb : 0 < b) (h0 : b ≤ a) (h1 : a < 2 * b) :
    jsMod a b = a - b := by
  have hq : 0 ≤ a / b := div_nonneg (le_trans hb.le h0) hb.le
  have hfl : ⌊a / b⌋ = 1 := by
    rw [Int.floor_eq_iff]
    constructor
    · push_cast
      rwa [le_div_iff₀ hb, one_mul]
    · push_cast
      rw [div_lt_iff₀ hb]
      linarith
  simp [jsMod, jsTrunc, if_pos hq, hfl]

theorem jsMod_of_neg {a b : ℝ} (hb : 0 < b) (h0 : -b < a) (h1 : a < 0) :
    jsMod a b = a := by
  have hq : ¬ (0 ≤ a / b) := by
    rw [not_le]
    exact div_neg_of_neg_of_pos h1 hb
  have hcl : ⌈a / b⌉ = 0 := by
    rw [Int.ceil_eq_zero_iff, Set.mem_Ioc]
    constructor
    · rw [lt_div_iff₀ hb]
      linarith
    · exact le_of_lt (div_neg_of_neg_of_pos h1 hb)
  simp [jsMod, jsTrunc, if_neg hq, hcl]

theorem normAngle_cos (v : ℝ) : Real.cos (normAngle v) = Real.cos v := by
  unfold normAngle
  split
  · exact Real.cos_add_two_pi v
  · rfl

theorem normAngle_sin (v : ℝ) : Real.sin (normAngle v) = Real.sin v := by
  unfold normAngle
  split
  · exact Real.sin_add_two_pi v
  · rfl

theorem arccos_anti {x y : ℝ} (h : x ≤ y) : Real.arccos y ≤ Real.arccos x := by
  rw [Real.arccos_eq_pi_div_two_sub_arcsin, Real.arccos_eq_pi_div_two_sub_arcsin]
  exact sub_le_sub_left (Real.monotone_arcsin h) _

theorem arccos_ge_of_le {x t : ℝ} (ht0 : 0 ≤ t) (htpi : t ≤ π) (h : x ≤ Real.cos t) :
    t ≤ Real.arccos x := by
  have h2 := arccos_anti h
  rwa [Real.arccos_cos ht0 htpi] at h2

theorem arccos_le_of_ge {x t : ℝ} (ht0 : 0 ≤ t) (htpi : t ≤ π) (h : -Real.cos t ≤ x) :
    Real.arccos x ≤ π - t := by
  have h2 : Real.arccos x ≤ Real.arccos (-(Real.cos t)) := arccos_anti (by linarith)
  rwa [Real.arccos_neg, Real.arccos_cos ht0 htpi] at h2

theorem cos_eps_lt_one : Real.cos eps < 1 := by
  have h2 : eps ≤ π := by linarith [eps_lt_pi_div_two, Real.pi_pos]
  have h := Real.cos_lt_cos_of_nonneg_of_le_pi (le_refl 0) h2 eps_pos
  rwa [Real.cos_zero] at h

theorem cos_eps_pos : 0 < Real.cos eps :=
  Real.cos_pos_of_mem_Ioo
    ⟨by linarith [eps_pos, Real.pi_pos], eps_lt_pi_div_two⟩

/-- Reconstruction of a unit vector's Cartesian components from the angles
`arccos c` and the normalized `atan2 b a`, exactly as the Hadamard branch of
the source recomputes them on its next invocation. -/
theorem cx_arg_recon (a b c : ℝ) (hunit : a ^ 2 + b ^ 2 + c ^ 2 = 1)
    (hc : |c| < 1) :
    Real.sin (Real.arccos c) * Real.cos (normAngle (atan2 b a)) = a ∧
    Real.sin (Real.arccos c) * Real.sin (normAngle (atan2 b a)) = b ∧
    Real.cos (Real.arccos c) = c := by
  have hc' := abs_lt.mp hc
  have hab : 0 < a ^ 2 + b ^ 2 := by nlinarith
  have hz : (⟨a, b⟩ : ℂ) ≠ 0 := by
    intro h
    rw [Complex.ext_iff] at h
    simp only [Complex.zero_re, Complex.zero_im] at h
    nlinarith [h.1, h.2]
  have habs : Complex.abs ⟨a, b⟩ = Real.sqrt (a ^ 2 + b ^ 2) := by
    rw [Complex.abs_apply, Complex.normSq_mk]
    ring_nf
  have hsin : Real.sin (Real.arccos c) = Real.sqrt (a ^ 2 + b ^ 2) := by
    rw [Real.sin_arccos]
    congr 1
    linarith
  have hsq : Real.sqrt (a ^ 2 + b ^ 2) ≠ 0 := (Real.sqrt_pos.mpr hab).ne'
  refine ⟨?_, ?_, Real.cos_arccos (by linarith) (by linarith)⟩
  · rw [normAngle_cos, atan2, Complex.cos_arg hz, habs, hsin]
    show Real.sqrt (a ^ 2 + b ^ 2) * (a / Real.sqrt (a ^ 2 + b ^ 2)) = a
    rw [mul_comm, div_mul_cancel₀ _ hsq]
  · rw [normAngle_sin, atan2, Complex.sin_arg, habs, hsin]
    show Real.sqrt (a ^ 2 + b ^ 2) * (b / Real.sqrt (a ^ 2 + b ^ 2)) = b
    rw [mul_comm, div_mul_cancel₀ _ hsq]

/-- Recovering an angle `φ ∈ [0, 2π)` from the planar components
`(r cos φ, r sin φ)` with `r > 0`, via `atan2` plus the source's
negative-angle normalization. -/
theorem normAngle_atan2_polar (r phi : ℝ) (hr : 0 < r) (h0 : 0 ≤ phi)
    (h1 : phi < 2 * π) :
    normAngle (atan2 (r * Real.sin phi) (r * Real.cos phi)) = phi := by
  have hmk : (⟨r * Real.cos phi, r * Real.sin phi⟩ : ℂ) =
      (r : ℂ) * ⟨Real.cos phi, Real.sin phi⟩ := by
    rw [Complex.ext_iff]
    simp [Complex.mul_re, Complex.mul_im]
  rw [atan2, hmk, Complex.arg_real_mul _ hr]
  by_cases hp : phi ≤ π
  · have harg : Complex.arg ⟨Real.cos phi, Real.sin phi⟩ = phi := by
      rw [Complex.mk_eq_add_mul_I, Complex.ofReal_cos, Complex.ofReal_sin]
      exact Complex.arg_cos_add_sin_mul_I ⟨by linarith [Real.pi_pos], hp⟩
    rw [harg, normAngle, if_neg (not_lt.mpr h0)]
  · have harg : Complex.arg ⟨Real.cos phi, Real.sin phi⟩ = phi - 2 * π := by
      rw [← Real.cos_sub_two_pi phi, ← Real.sin_sub_two_pi phi,
        Complex.mk_eq_add_mul_I, Complex.ofReal_cos, Complex.ofReal_sin]
      exact Complex.arg_cos_add_sin_mul_I ⟨by linarith, by linarith [Real.pi_pos]⟩
    rw [harg, normAngle, if_pos (by linarith [Real.pi_pos])]
    ring

theorem normAngle_of_nonneg {v : ℝ} (h : 0 ≤ v) : normAngle v = v := by
  rw [normAngle, if_neg (not_lt.mpr h)]

theorem normAngle_of_neg {v : ℝ} (h : v < 0) : normAngle v = v + 2 * π := by
  rw [normAngle, if_pos h]

/-! ## Claim theorems -/

/-- C1: while `isAnimating` is true, a call to `animateToState` is rejected
silently — it returns with the qubit angles, the in-flight start point,
target and start time all unchanged, and does not start a new
interpolation. -/
theorem animateToState_rejected_while_animating (s : VizState)
    (targetTheta targetPhi duration now : ℝ) (h : s.isAnimating = true) :
    animateToState s targetTheta targetPhi duration now = s := by
  simp [animateToState, h]

theorem animateToState_rejected_while_animating_witness :
    sAnim.isAnimating = true ∧ animateToState sAnim 3 3 1000 0 = sAnim :=
  ⟨rfl, animateToState_rejected_while_animating sAnim 3 3 1000 0 rfl⟩

/-- C2 counterexample: the direct angle-set handler does not clamp `theta`;
at slider value `-90` the stored angle is `-π/2`, outside `[0, π]`. -/
theorem thetaSliderInput_no_clamp :
    (thetaSliderInput sIdle (-90)).theta = -(π / 2) ∧
    ¬ (0 ≤ (thetaSliderInput sIdle (-90)).theta ∧
       (thetaSliderInput sIdle (-90)).theta ≤ π) := by
  have h : (thetaSliderInput sIdle (-90)).theta = -(π / 2) := by
    show -90 * π / 180 = -(π / 2)
    ring
  refine ⟨h, ?_⟩
  rw [h]
  rintro ⟨hc, -⟩
  have := Real.pi_pos
  linarith

/-- C2 amended: the slider handlers convert the input degree value to
radians (`value * π / 180`) and store it directly, with no clamping of
`theta` and no modulo normalization of `phi`; the stored `theta` lies in
`[0, π]` when the input degrees lie in `[0, 180]`, and the stored `phi`
lies in `[0, 2π)` when the input degrees lie in `[0, 360)`. -/
theorem sliderInput_stores_raw (s : VizState) (u v w : ℝ)
    (hv0 : 0 ≤ v) (hv1 : v ≤ 180) (hw0 : 0 ≤ w) (hw1 : w < 360) :
    (thetaSliderInput s u).theta = u * π / 180 ∧
    (phiSliderInput s u).phi = u * π / 180 ∧
    (0 ≤ (thetaSliderInput s v).theta ∧ (thetaSliderInput s v).theta ≤ π) ∧
    (0 ≤ (phiSliderInput s w).phi ∧ (phiSliderInput s w).phi < 2 * π) := by
  have hπ := Real.pi_pos
  have h180 : (0:ℝ) < 180 := by norm_num
  refine ⟨rfl, rfl, ⟨?_, ?_⟩, ⟨?_, ?_⟩⟩
  · exact div_nonneg (mul_nonneg hv0 hπ.le) h180.le
  · show v * π / 180 ≤ π
    rw [div_le_iff₀ h180]
    nlinarith
  · exact div_nonneg (mul_nonneg hw0 hπ.le) h180.le
  · show w * π / 180 < 2 * π
    rw [div_lt_iff₀ h180]
    nlinarith

theorem sliderInput_stores_raw_witness :
    ((0:ℝ) ≤ 90 ∧ (90:ℝ) ≤ 180 ∧ (0:ℝ) ≤ 180 ∧ (180:ℝ) < 360) ∧
    0 ≤ (thetaSliderInput sIdle 90).theta ∧
    (thetaSliderInput sIdle 90).theta ≤ π := by
  refine ⟨by norm_num, ?_⟩
  have h := sliderInput_stores_raw sIdle 45 90 180 (by norm_num) (by norm_num)
    (by norm_num) (by norm_num)
  exact h.2.2.1

/-- C6 counterexample: `tickProgress` is only capped above at 1, never
clamped below at 0; at a tick time preceding `startTime` it is `-1`,
outside `[0, 1]`. -/
theorem tick_progress_not_clamped_below :
    tickProgress sAnim 0 = -1 ∧ ¬ (0 ≤ tickProgress sAnim 0) := by
  have h : tickProgress sAnim 0 = -1 := by
    rw [tickProgress]
    have h1 : ((0:ℝ) - sAnim.startTime) / sAnim.duration = -1 := by
      show ((0:ℝ) - 1000) / 1000 = -1
      norm_num
    rw [h1]
    exact min_eq_left (by norm_num)
  exact ⟨h, by rw [h]; norm_num⟩

/-- C6 amended: per-frame `tick(now)` computes
`progress = min((now − startTime) / durationMs, 1)` — capped above at 1 but
not clamped below 0, so it lies in `[0, 1]` only when `now` does not
precede `startTime` (it is negative otherwise) — applies cubic ease-out
`eased = 1 − (1 − progress)³`, interpolates both angles linearly in raw
angle value with no shortest-path wraparound, and transitions back to Idle
exactly when `progress ≥ 1`. -/
theorem tick_progress_and_interp (s : VizState) (now : ℝ)
    (h1 : s.startTime ≤ now) (h2 : 0 < s.duration) :
    0 ≤ tickProgress s now ∧ tickProgress s now ≤ 1 ∧
    (tick s now).theta =
      s.startTheta +
        (s.targetTheta - s.startTheta) * (1 - (1 - tickProgress s now) ^ 3) ∧
    (tick s now).phi =
      s.startPhi +
        (s.targetPhi - s.startPhi) * (1 - (1 - tickProgress s now) ^ 3) ∧
    (1 ≤ tickProgress s now → (tick s now).isAnimating = false) ∧
    (tickProgress s now < 1 → (tick s now).isAnimating = s.isAnimating) := by
  refine ⟨?_, min_le_right _ _, rfl, rfl, ?_, ?_⟩
  · exact le_min (div_nonneg (by linarith) h2.le) (by norm_num)
  · intro h
    show (if tickProgress s now < 1 then s.isAnimating else false) = false
    rw [if_neg (not_lt.mpr h)]
  · intro h
    show (if tickProgress s now < 1 then s.isAnimating else false) = s.isAnimating
    rw [if_pos h]

theorem tick_progress_and_interp_witness :
    (sIdle.startTime ≤ 500 ∧ (0:ℝ) < sIdle.duration) ∧
    0 ≤ tickProgress sIdle 500 ∧ tickProgress sIdle 500 ≤ 1 := by
  refine ⟨⟨by norm_num [sIdle], by norm_num [sIdle]⟩, ?_⟩
  have h := tick_progress_and_interp sIdle 500 (by norm_num [sIdle])
    (by norm_num [sIdle])
  exact ⟨h.1, h.2.1⟩

/-- C3: `measure` returns outcome 0 exactly when the uniform sample is below
`p0 = cos²(θ/2)` and 1 otherwise, requests a collapse transition to `(0,0)`
for outcome 0 and `(π,0)` for outcome 1, and in particular `θ = 0` always
yields outcome 0 and `θ = π` always yields outcome 1. -/
theorem measurement_outcome (s : VizState) (sample now : ℝ)
    (h0 : 0 ≤ sample) (h1 : sample < 1) (hidle : s.isAnimating = false) :
    ((performMeasurement s sample now).1 = 0 ↔
      sample < Real.cos (s.theta / 2) ^ 2) ∧
    ((performMeasurement s sample now).1 = 0 →
      (performMeasurement s sample now).2.targetTheta = 0 ∧
      (performMeasurement s sample now).2.targetPhi = 0) ∧
    ((performMeasurement s sample now).1 = 1 →
      (performMeasurement s sample now).2.targetTheta = π ∧
      (performMeasurement s sample now).2.targetPhi = 0) ∧
    (s.theta = 0 → (performMeasurement s sample now).1 = 0) ∧
    (s.theta = π → (performMeasurement s sample now).1 = 1) := by
  by_cases hlt : sample < Real.cos (s.theta / 2) ^ 2
  · refine ⟨?_, ?_, ?_, ?_, ?_⟩
    · simp [performMeasurement, hlt]
    · intro
      simp [performMeasurement, hlt, animateToState, hidle]
    · intro hcon
      simp [performMeasurement, hlt] at hcon
    · intro
      simp [performMeasurement, hlt]
    · intro hθ
      rw [hθ, Real.cos_pi_div_two] at hlt
      norm_num at hlt
      linarith
  · refine ⟨?_, ?_, ?_, ?_, ?_⟩
    · simp [performMeasurement, hlt]
    · intro hcon
      simp [performMeasurement, hlt] at hcon
    · intro
      simp [performMeasurement, hlt, animateToState, hidle]
    · intro hθ
      rw [hθ] at hlt
      norm_num [Real.cos_zero] at hlt
      linarith
    · intro
      simp [performMeasurement, hlt]

theorem measurement_outcome_witness :
    ((0:ℝ) ≤ 1 / 2 ∧ (1 / 2 : ℝ) < 1 ∧ sIdle.isAnimating = false) ∧
    (performMeasurement sIdle (1 / 2) 0).1 = 0 := by
  refine ⟨⟨by norm_num, by norm_num, rfl⟩, ?_⟩
  have h := measurement_outcome sIdle (1 / 2) 0 (by norm_num) (by norm_num) rfl
  exact h.2.2.2.1 rfl

/-- C7: evaluating `setPresetState` — with the JavaScript property lookup
modelled in full — at the failing input `"constructor"`: the identifier is
none of the six preset ids, yet the truthy inherited
`Object.prototype.constructor` passes the `if (states[state])` test, so on
an idle state the source calls `animateToState(undefined, undefined)` and
the animator starts a transition with `undefined` targets instead of
ignoring the request; an identifier outside both the table and
`Object.prototype` (here `"foo"`) is a genuine no-op. -/
theorem setPresetState_proto_leak :
    ("constructor" ∉ (["ground", "excited", "plus", "minus", "right",
      "left"] : List String)) ∧
    setPresetStateJs sIdleJs "constructor" 0 ≠ sIdleJs ∧
    (setPresetStateJs sIdleJs "constructor" 0).isAnimating = true ∧
    (setPresetStateJs sIdleJs "constructor" 0).targetTheta = none ∧
    (setPresetStateJs sIdleJs "constructor" 0).targetPhi = none ∧
    setPresetStateJs sIdleJs "foo" 0 = sIdleJs := by
  have hread : statesRead "constructor" = PresetRead.inherited := by
    simp [statesRead, objectProtoKeys]
  have hconc : setPresetStateJs sIdleJs "constructor" 0 =
      ⟨some 0, some 0, true, some 0, some 0, none, none, 0, 1000⟩ := by
    simp only [setPresetStateJs, hread]
    simp [animateToStateJs, sIdleJs]
  have hfoo : statesRead "foo" = PresetRead.absent := by
    simp [statesRead, objectProtoKeys]
  refine ⟨by decide, ?_, ?_, ?_, ?_, ?_⟩
  · rw [hconc]
    intro h
    have h2 := congrArg VizStateJs.isAnimating h
    simp [sIdleJs] at h2
  · rw [hconc]
  · rw [hconc]
  · rw [hconc]
  · simp only [setPresetStateJs, hfoo]

/-- C5: the Pauli-X angle map is an involution on states with `θ ∈ [0, π]`
and `φ ∈ [0, 2π)`: applying it twice returns the original pair exactly. -/
theorem pauliX_involution (theta phi : ℝ) (_hθ0 : 0 ≤ theta) (_hθ1 : theta ≤ π)
    (hφ0 : 0 ≤ phi) (hφ1 : phi < 2 * π) :
    pauliXMap (pauliXMap theta phi).1 (pauliXMap theta phi).2 = (theta, phi) := by
  have hπ := Real.pi_pos
  have h2π : (0:ℝ) < 2 * π := by linarith
  by_cases hp : phi < π
  · have hm1 : jsMod (phi + π) (2 * π) = phi + π :=
      jsMod_eq_self h2π (by linarith) (by linarith)
    have hm2 : jsMod (phi + π + π) (2 * π) = phi + π + π - 2 * π :=
      jsMod_eq_sub h2π (by linarith) (by linarith)
    simp only [pauliXMap, hm1, hm2, Prod.mk.injEq]
    constructor <;> ring
  · have hm1 : jsMod (phi + π) (2 * π) = phi + π - 2 * π :=
      jsMod_eq_sub h2π (by linarith) (by linarith)
    have hm2 : jsMod (phi + π - 2 * π + π) (2 * π) = phi + π - 2 * π + π :=
      jsMod_eq_self h2π (by linarith) (by linarith)
    simp only [pauliXMap, hm1, hm2, Prod.mk.injEq]
    constructor <;> ring

theorem pauliX_involution_witness :
    ((0:ℝ) ≤ π / 3 ∧ π / 3 ≤ π ∧ (0:ℝ) ≤ π / 2 ∧ π / 2 < 2 * π) ∧
    pauliXMap (pauliXMap (π / 3) (π / 2)).1 (pauliXMap (π / 3) (π / 2)).2 =
      (π / 3, π / 2) := by
  have hπ := Real.pi_pos
  refine ⟨⟨by linarith, by linarith, by linarith, by linarith⟩, ?_⟩
  exact pauliX_involution (π / 3) (π / 2) (by linarith) (by linarith)
    (by linarith) (by linarith)

/-- C10: the Pauli-Y angle map is an involution: on states with
`θ ∈ [0, π]` and `φ ∈ [0, 2π)`, applying it twice returns exactly the
original pair. -/
theorem pauliY_involution (theta phi : ℝ) (_hθ0 : 0 ≤ theta) (_hθ1 : theta ≤ π)
    (hφ0 : 0 ≤ phi) (hφ1 : phi < 2 * π) :
    pauliYMap (pauliYMap theta phi).1 (pauliYMap theta phi).2 = (theta, phi) := by
  have hπ := Real.pi_pos
  have h2π : (0:ℝ) < 2 * π := by linarith
  by_cases hp : phi ≤ π
  · have hm1 : jsMod (π - phi) (2 * π) = π - phi :=
      jsMod_eq_self h2π (by linarith) (by linarith)
    have hn1 : normAngle (π - phi) = π - phi :=
      normAngle_of_nonneg (by linarith)
    have hm2 : jsMod (π - (π - phi)) (2 * π) = π - (π - phi) :=
      jsMod_eq_self h2π (by linarith) (by linarith)
    have hn2 : normAngle (π - (π - phi)) = π - (π - phi) :=
      normAngle_of_nonneg (by linarith)
    simp only [pauliYMap, hm1, hn1, hm2, hn2, Prod.mk.injEq]
    constructor <;> ring
  · have hm1 : jsMod (π - phi) (2 * π) = π - phi :=
      jsMod_of_neg h2π (by linarith) (by linarith)
    have hn1 : normAngle (π - phi) = π - phi + 2 * π :=
      normAngle_of_neg (by linarith)
    have hm2 : jsMod (π - (π - phi + 2 * π)) (2 * π) = π - (π - phi + 2 * π) :=
      jsMod_of_neg h2π (by linarith) (by linarith)
    have hn2 : normAngle (π - (π - phi + 2 * π)) =
        π - (π - phi + 2 * π) + 2 * π :=
      normAngle_of_neg (by linarith)
    simp only [pauliYMap, hm1, hn1, hm2, hn2, Prod.mk.injEq]
    constructor <;> ring

theorem pauliY_involution_witness :
    ((0:ℝ) ≤ π / 3 ∧ π / 3 ≤ π ∧ (0:ℝ) ≤ 3 * π / 2 ∧ 3 * π / 2 < 2 * π) ∧
    pauliYMap (pauliYMap (π / 3) (3 * π / 2)).1
      (pauliYMap (π / 3) (3 * π / 2)).2 = (π / 3, 3 * π / 2) := by
  have hπ := Real.pi_pos
  refine ⟨⟨by linarith, by linarith, by linarith, by linarith⟩, ?_⟩
  exact pauliY_involution (π / 3) (3 * π / 2) (by linarith) (by linarith)
    (by linarith) (by linarith)

theorem normAngle_atan2_mem (y x : ℝ) :
    0 ≤ normAngle (atan2 y x) ∧ normAngle (atan2 y x) < 2 * π := by
  have h1 := Complex.neg_pi_lt_arg (⟨x, y⟩ : ℂ)
  have h2 := Complex.arg_le_pi (⟨x, y⟩ : ℂ)
  have hπ := Real.pi_pos
  rw [atan2, normAngle]
  split
  · constructor <;> linarith
  · rename_i h
    rw [not_lt] at h
    constructor <;> linarith

/-- The general (non-pole) branch of `applyHadamard`, written out. -/
theorem hadamardMap_general {θ : ℝ} (phi : ℝ) (h1 : ¬ |θ| < eps)
    (h2 : ¬ |θ - π| < eps) :
    hadamardMap θ phi =
      (Real.arccos (Real.sin θ * Real.cos phi),
       normAngle (atan2 (-(Real.sin θ * Real.sin phi)) (Real.cos θ))) := by
  rw [hadamardMap, if_neg h1, if_neg h2]

theorem inRange_mk {a b : ℝ} (h1 : 0 ≤ a) (h2 : a ≤ π) (h3 : 0 ≤ b)
    (h4 : b < 2 * π) : inRange (a, b) :=
  ⟨h1, h2, h3, h4⟩

/-- C9: each gate angle map and each preset produces target angles that
again satisfy `θ' ∈ [0, π]` and `φ' ∈ [0, 2π)`, so the QubitState
angle-range invariant is preserved. -/
theorem gate_preset_range (theta phi : ℝ) (hθ0 : 0 ≤ theta) (hθ1 : theta ≤ π)
    (hφ0 : 0 ≤ phi) (hφ1 : phi < 2 * π) :
    inRange (pauliXMap theta phi) ∧ inRange (pauliYMap theta phi) ∧
    inRange (pauliZMap theta phi) ∧ inRange (hadamardMap theta phi) ∧
    (∀ id p, presetTable id = some p → inRange p) := by
  have hπ := Real.pi_pos
  have h2π : (0:ℝ) < 2 * π := by linarith
  have hmodX : 0 ≤ jsMod (phi + π) (2 * π) ∧ jsMod (phi + π) (2 * π) < 2 * π := by
    by_cases hp : phi < π
    · rw [jsMod_eq_self h2π (by linarith) (by linarith)]
      constructor <;> linarith
    · rw [jsMod_eq_sub h2π (by linarith) (by linarith)]
      constructor <;> linarith
  have hmodY : 0 ≤ normAngle (jsMod (π - phi) (2 * π)) ∧
      normAngle (jsMod (π - phi) (2 * π)) < 2 * π := by
    by_cases hp : phi ≤ π
    · rw [jsMod_eq_self h2π (by linarith) (by linarith),
        normAngle_of_nonneg (by linarith)]
      constructor <;> linarith
    · rw [jsMod_of_neg h2π (by linarith) (by linarith),
        normAngle_of_neg (by linarith)]
      constructor <;> linarith
  refine ⟨?_, ?_, ?_, ?_, ?_⟩
  · show 0 ≤ π - theta ∧ π - theta ≤ π ∧
      0 ≤ jsMod (phi + π) (2 * π) ∧ jsMod (phi + π) (2 * π) < 2 * π
    exact ⟨by linarith, by linarith, hmodX.1, hmodX.2⟩
  · show 0 ≤ π - theta ∧ π - theta ≤ π ∧
      0 ≤ normAngle (jsMod (π - phi) (2 * π)) ∧
      normAngle (jsMod (π - phi) (2 * π)) < 2 * π
    exact ⟨by linarith, by linarith, hmodY.1, hmodY.2⟩
  · show 0 ≤ theta ∧ theta ≤ π ∧
      0 ≤ jsMod (phi + π) (2 * π) ∧ jsMod (phi + π) (2 * π) < 2 * π
    exact ⟨hθ0, hθ1, hmodX.1, hmodX.2⟩
  · rw [hadamardMap]
    split
    · exact ⟨by linarith, by linarith, le_refl 0, h2π⟩
    · split
      · exact ⟨by linarith, by linarith, by linarith, by linarith⟩
      · exact ⟨Real.arccos_nonneg _, Real.arccos_le_pi _,
          (normAngle_atan2_mem _ _).1, (normAngle_atan2_mem _ _).2⟩
  · intro id p h
    rw [presetTable] at h
    split_ifs at h
    all_goals first
      | exact Option.noConfusion h
      | (obtain rfl := Option.some.inj h
         exact inRange_mk (by linarith) (by linarith) (by linarith) (by linarith))

theorem gate_preset_range_witness :
    ((0:ℝ) ≤ π / 2 ∧ π / 2 ≤ π ∧ (0:ℝ) ≤ π ∧ π < 2 * π) ∧
    inRange (pauliXMap (π / 2) π) := by
  have hπ := Real.pi_pos
  refine ⟨⟨by linarith, by linarith, by linarith, by linarith⟩, ?_⟩
  exact (gate_preset_range (π / 2) π (by linarith) (by linarith) (by linarith)
    (by linarith)).1

/-- C4: away from the special-cased pole regions (in either application),
the Hadamard angle map is exactly self-inverse; and at the special-cased
ground pole the two documented special cases compose to a round trip:
`(0,0) ↦ (π/2, 0) ↦ (0,0)`. -/
theorem hadamard_involution (theta phi : ℝ)
    (hθa : eps ≤ theta) (hθb : theta ≤ π - eps)
    (hφ0 : 0 ≤ phi) (hφ1 : phi < 2 * π)
    (hx : |Real.sin theta * Real.cos phi| ≤ Real.cos eps) :
    hadamardMap (hadamardMap theta phi).1 (hadamardMap theta phi).2 =
      (theta, phi) ∧
    hadamardMap 0 0 = (π / 2, 0) ∧ hadamardMap (π / 2) 0 = (0, 0) := by
  have hπ := Real.pi_pos
  have hε := eps_pos
  have hεπ2 := eps_lt_pi_div_two
  refine ⟨?_, ?_, ?_⟩
  · have hθpos : 0 < theta := lt_of_lt_of_le hε hθa
    have hθlt : theta < π := by linarith
    have hb1 : ¬ |theta| < eps := by
      rw [abs_of_pos hθpos]
      exact not_lt.mpr hθa
    have hb2 : ¬ |theta - π| < eps := by
      rw [abs_of_neg (by linarith : theta - π < 0)]
      exact not_lt.mpr (by linarith)
    have h1 := hadamardMap_general phi hb1 hb2
    have hx1 : |Real.sin theta * Real.cos phi| < 1 :=
      lt_of_le_of_lt hx cos_eps_lt_one
    have hxle : Real.sin theta * Real.cos phi ≤ Real.cos eps := (abs_le.mp hx).2
    have hxge : -Real.cos eps ≤ Real.sin theta * Real.cos phi := (abs_le.mp hx).1
    have hepspi : eps ≤ π := by linarith
    have hθ1lo : eps ≤ Real.arccos (Real.sin theta * Real.cos phi) :=
      arccos_ge_of_le hε.le hepspi hxle
    have hθ1hi : Real.arccos (Real.sin theta * Real.cos phi) ≤ π - eps :=
      arccos_le_of_ge hε.le hepspi hxge
    have hunit : Real.cos theta ^ 2 + (-(Real.sin theta * Real.sin phi)) ^ 2 +
        (Real.sin theta * Real.cos phi) ^ 2 = 1 := by
      nlinarith [Real.sin_sq_add_cos_sq theta, Real.sin_sq_add_cos_sq phi]
    obtain ⟨hrc, hrs, hrcos⟩ :=
      cx_arg_recon (Real.cos theta) (-(Real.sin theta * Real.sin phi))
        (Real.sin theta * Real.cos phi) hunit hx1
    have hθ1pos : 0 < Real.arccos (Real.sin theta * Real.cos phi) :=
      lt_of_lt_of_le hε hθ1lo
    have hb3 : ¬ |Real.arccos (Real.sin theta * Real.cos phi)| < eps := by
      rw [abs_of_pos hθ1pos]
      exact not_lt.mpr hθ1lo
    have hb4 : ¬ |Real.arccos (Real.sin theta * Real.cos phi) - π| < eps := by
      rw [abs_of_neg (by linarith : Real.arccos (Real.sin theta * Real.cos phi) - π < 0)]
      exact not_lt.mpr (by linarith)
    rw [h1]
    show hadamardMap (Real.arccos (Real.sin theta * Real.cos phi))
      (normAngle (atan2 (-(Real.sin theta * Real.sin phi)) (Real.cos theta))) =
      (theta, phi)
    rw [hadamardMap_general _ hb3 hb4, hrc, hrs, hrcos, neg_neg,
      Real.arccos_cos hθpos.le hθlt.le,
      normAngle_atan2_polar (Real.sin theta) phi
        (Real.sin_pos_of_pos_of_lt_pi hθpos hθlt) hφ0 hφ1]
  · rw [hadamardMap, if_pos (by rw [abs_zero]; exact hε)]
  · have hb5 : ¬ |π / 2| < eps := by
      rw [abs_of_pos (by linarith : (0:ℝ) < π / 2)]
      exact not_lt.mpr (by linarith)
    have hb6 : ¬ |π / 2 - π| < eps := by
      rw [abs_of_neg (by linarith : π / 2 - π < 0)]
      exact not_lt.mpr (by linarith)
    rw [hadamardMap_general _ hb5 hb6]
    rw [Real.sin_pi_div_two, Real.cos_zero, Real.sin_zero, Real.cos_pi_div_two,
      mul_one, mul_zero, neg_zero]
    have hz : atan2 0 0 = 0 := by
      have h00 : (⟨0, 0⟩ : ℂ) = 0 := by
        rw [Complex.ext_iff]
        simp
      rw [atan2, h00, Complex.arg_zero]
    rw [Real.arccos_one, hz, normAngle_of_nonneg (le_refl 0)]

theorem hadamard_involution_witness :
    (eps ≤ π / 2 ∧ π / 2 ≤ π - eps ∧ (0:ℝ) ≤ π / 2 ∧ π / 2 < 2 * π ∧
     |Real.sin (π / 2) * Real.cos (π / 2)| ≤ Real.cos eps) ∧
    hadamardMap (hadamardMap (π / 2) (π / 2)).1 (hadamardMap (π / 2) (π / 2)).2 =
      (π / 2, π / 2) := by
  have hπ := Real.pi_pos
  have hεπ2 := eps_lt_pi_div_two
  have hε := eps_pos
  have habs : |Real.sin (π / 2) * Real.cos (π / 2)| ≤ Real.cos eps := by
    rw [Real.sin_pi_div_two, Real.cos_pi_div_two, mul_zero, abs_zero]
    exact cos_eps_pos.le
  refine ⟨⟨by linarith, by linarith, by linarith, by linarith, habs⟩, ?_⟩
  exact (hadamard_involution (π / 2) (π / 2) (by linarith) (by linarith)
    (by linarith) (by linarith) habs).1

theorem sqrt2_lb : (1.413 : ℝ) ≤ Real.sqrt 2 :=
  (Real.le_sqrt (by norm_num) (by norm_num)).mpr (by norm_num)

theorem sqrt2_ub : Real.sqrt 2 < 1.415 :=
  (Real.sqrt_lt' (by norm_num)).mpr (by norm_num)

theorem toFixed3_eq {x : ℝ} (n : ℕ) (hx : ¬ x < 0)
    (h : round (1000 * x) = (n : ℤ)) : toFixed3 x = fixed3Str n := by
  rw [toFixed3, if_neg hx, h, Int.toNat_natCast]

theorem eps_def : eps = 1e-10 := rfl

theorem beta_pi2_pi2_real : (betaOf (π / 2) (π / 2)).real = 0 := by
  show Real.exp 0 * Real.cos (π / 2) * Real.sin (π / 2 / 2) = 0
  rw [Real.cos_pi_div_two]
  ring

theorem beta_pi2_pi2_imag : (betaOf (π / 2) (π / 2)).imag = Real.sqrt 2 / 2 := by
  show Real.exp 0 * Real.sin (π / 2) * Real.sin (π / 2 / 2) = Real.sqrt 2 / 2
  rw [Real.exp_zero, Real.sin_pi_div_two, show π / 2 / 2 = π / 4 by ring,
    Real.sin_pi_div_four]
  ring

theorem abs_zero_lt_eps : |(0 : ℝ)| < eps := by
  rw [abs_zero]
  exact eps_pos

/-- Shared evaluation: the β amplitude at `(π/2, π/2)` is formatted as
`"0.707i"`. -/
theorem format_beta_pi2_pi2 :
    formatComplex (betaOf (π / 2) (π / 2)).real (betaOf (π / 2) (π / 2)).imag =
      "0.707i" := by
  rw [beta_pi2_pi2_real, beta_pi2_pi2_imag]
  have hl := sqrt2_lb
  have hu := sqrt2_ub
  have hc1 : ¬ |Real.sqrt 2 / 2| < eps := by
    rw [abs_of_nonneg (by positivity), not_lt, eps_def]
    linarith
  have hc3 : ¬ |Real.sqrt 2 / 2 - 1| < eps := by
    rw [abs_of_neg (by linarith), not_lt, eps_def]
    linarith
  have hc4 : ¬ |Real.sqrt 2 / 2 + 1| < eps := by
    rw [abs_of_nonneg (by positivity), not_lt, eps_def]
    linarith
  have hround : round (1000 * (Real.sqrt 2 / 2)) = (707 : ℤ) := by
    rw [round_eq, Int.floor_eq_iff]
    constructor
    · push_cast
      linarith
    · push_cast
      linarith
  have hfix : toFixed3 (Real.sqrt 2 / 2) = fixed3Str 707 :=
    toFixed3_eq 707 (not_lt.mpr (by positivity)) hround
  simp only [formatComplex, hc1, hc3, hc4, abs_zero_lt_eps, if_true, if_false,
    ite_true, ite_false, hfix]
  decide

/-- C8 counterexample: at `(θ, φ) = (π/2, π/2)` the β amplitude has
magnitude `sin(π/4) = √2/2`, not 1, and is rendered `"0.707i"` rather than
bare `i`. -/
theorem format_beta_pi2_pi2_not_bare_i :
    formatComplex (betaOf (π / 2) (π / 2)).real (betaOf (π / 2) (π / 2)).imag ≠
      "i" := by
  rw [format_beta_pi2_pi2]
  decide

/-- C8 (amended): `formatComplex` suppresses a component whose magnitude is
below `1e-10` and renders a unit-magnitude imaginary coefficient as bare
`i`/`-i`; at `(θ,φ) = (0,0)` the amplitude pair renders as
`("1.000", "0.000")`; at `(π/2, π/2)` the β amplitude has magnitude
`sin(π/4) = √2/2` and renders as `"0.707i"` — bare `i` instead requires a
unit-magnitude β, as at `(π, π/2)`. -/
theorem formatState_examples :
    formatComplex (alphaOf 0).real (alphaOf 0).imag = "1.000" ∧
    formatComplex (betaOf 0 0).real (betaOf 0 0).imag = "0.000" ∧
    formatComplex (betaOf (π / 2) (π / 2)).real
      (betaOf (π / 2) (π / 2)).imag = "0.707i" ∧
    formatComplex (betaOf π (π / 2)).real (betaOf π (π / 2)).imag = "i" := by
  refine ⟨?_, ?_, format_beta_pi2_pi2, ?_⟩
  · have ha : (alphaOf 0).real = 1 := by
      show Real.cos (0 / 2) = 1
      norm_num
    have hai : (alphaOf 0).imag = 0 := rfl
    have hfix : toFixed3 1 = fixed3Str 1000 := by
      refine toFixed3_eq 1000 (by norm_num) ?_
      rw [show (1000 : ℝ) * 1 = ((1000 : ℕ) : ℝ) by norm_num, round_natCast]
    rw [ha, hai]
    simp only [formatComplex, abs_zero_lt_eps, if_true, ite_true, hfix]
    decide
  · have hr : (betaOf 0 0).real = 0 := by
      show Real.exp 0 * Real.cos 0 * Real.sin (0 / 2) = 0
      norm_num
    have hi : (betaOf 0 0).imag = 0 := by
      show Real.exp 0 * Real.sin 0 * Real.sin (0 / 2) = 0
      norm_num
    have hfix : toFixed3 0 = fixed3Str 0 := by
      refine toFixed3_eq 0 (by norm_num) ?_
      rw [mul_zero]
      exact_mod_cast round_zero
    rw [hr, hi]
    simp only [formatComplex, abs_zero_lt_eps, if_true, ite_true, hfix]
    decide
  · have hr : (betaOf π (π / 2)).real = 0 := by
      show Real.exp 0 * Real.cos (π / 2) * Real.sin (π / 2) = 0
      rw [Real.cos_pi_div_two]
      ring
    have hi : (betaOf π (π / 2)).imag = 1 := by
      show Real.exp 0 * Real.sin (π / 2) * Real.sin (π / 2) = 1
      rw [Real.exp_zero, Real.sin_pi_div_two]
      ring
    have hc1 : ¬ |(1 : ℝ)| < eps := by
      rw [abs_one, not_lt, eps_def]
      norm_num
    have hc2 : |(1 : ℝ) - 1| < eps := by
      rw [sub_self, abs_zero]
      exact eps_pos
    rw [hr, hi]
    simp only [formatComplex, hc1, hc2, abs_zero_lt_eps, if_true, if_false,
      ite_true, ite_false]

end BlochSphere
